import Mathlib

/-!
Verification of the JIMM gateway against its specification.

The definitions below are a shallow embedding of the Go source:
pure functions become Lean functions; calls to external collaborators
(the Mongo-backed index store, upstream controller APIs, the
authenticator) become explicit parameters recording the outcome of
each call, and the database side effects an operation performs are
returned as an explicit trace of operations.
-/

namespace Jimm

/-! ## Error model (errgo / params causes)

An error is modelled by its errgo cause together with, for upstream
errors, the juju wire code carried by the error.  `errgo.Mask(err,
Is(c1), ...)` keeps the cause when it is in the allowed list and hides
it otherwise; `errgo.Notef` always hides the cause; `errgo.WithCausef`
sets it.
-/

/-- The error causes used by the embedded code (params.Err* values,
`ErrAPIConnection`, `errInvalidModelParams`, plus `other` for an error
whose cause is hidden or is some unrelated value). -/
inductive ErrCause where
  | notFound
  | alreadyExists
  | badRequest
  | unauthorized
  | forbidden
  | ambiguousChoice
  | notImplemented
  | notSupported
  | upgradeInProgress
  | apiConnection
  | invalidModelParams
  | monitoringStopped
  | hasPersistentStorage
  | other
deriving DecidableEq, Repr

/-- The juju wire codes (`jujuparams.ErrCode`) that the embedded code
inspects on errors returned by an upstream controller. -/
inductive JujuCode where
  | alreadyExists
  | upgradeInProgress
  | unauthorized
  | none
  | other
deriving DecidableEq, Repr

/-- An error value: its errgo cause and the juju wire code observable
through `jujuparams.ErrCode`. -/
structure Err where
  cause : ErrCause
  jujuCode : JujuCode := .none
deriving DecidableEq, Repr

/-- `errgo.Mask(err, errgo.Is(c) for c in allowed)`: the cause is kept
when listed, hidden otherwise. -/
def errMask (allowed : List ErrCause) (e : Err) : Err :=
  if e.cause ∈ allowed then e else { e with cause := .other }

/-- `errgo.Notef(err, ...)`: wraps the error with a new message, hiding
the cause. -/
def errNotef (e : Err) : Err :=
  { e with cause := .other }

/-- `errgo.WithCausef(err, cause, ...)`: attaches the given cause. -/
def errWithCausef (e : Err) (c : ErrCause) : Err :=
  { e with cause := c }

/-! ## Entity and credential paths -/

/-- `params.EntityPath`: a user/name pair naming a controller or model. -/
structure EntityPath where
  user : String
  name : String
deriving DecidableEq, Repr

/-- `mongodoc.CredentialPath` / `params.CredentialPath`: a
(cloud, user, name) triple naming a cloud credential. -/
structure CredentialPath where
  cloud : String
  user : String
  name : String
deriving DecidableEq, Repr

/-- Modelled from the spec: `params.CredentialPath.IsZero` (the params
package is not under src/): a credential path is zero when no explicit
credential was named, i.e. all of its components are empty. -/
def CredentialPath.isZero (p : CredentialPath) : Bool :=
  p.cloud = "" && p.user = "" && p.name = ""

/-! ## C10: jimmdb.Update -/

/-- `jimmdb.Update`: a composable database update.  `bson.D` fields are
ordered lists of (name, value) elements; the `bson.M` field `Set_` is a
string-keyed map, modelled as an association list with insert-or-replace
semantics.  Values are kept abstract in the type parameter. -/
structure Update (α : Type) where
  addToSet_ : List (String × α)
  pull_ : List (String × α)
  set_ : List (String × α)
deriving DecidableEq, Repr

/-- A freshly constructed `jimmdb.Update{}`: all fields empty. -/
def Update.empty {α : Type} : Update α := ⟨[], [], []⟩

/-- `Update.IsZero`: true if the update records no operation. -/
def Update.isZero {α : Type} (u : Update α) : Bool :=
  u.addToSet_.length = 0 && u.pull_.length = 0 && u.set_.length = 0

/-- `Update.AddToSet`: append an element to the `$addToSet` document. -/
def Update.addToSet {α : Type} (u : Update α) (field : String) (value : α) : Update α :=
  { u with addToSet_ := u.addToSet_ ++ [(field, value)] }

/-- `Update.Pull`: append an element to the `$pull` document. -/
def Update.pull {α : Type} (u : Update α) (field : String) (value : α) : Update α :=
  { u with pull_ := u.pull_ ++ [(field, value)] }

/-- `Update.Set`: set a key of the `$set` map (insert or replace). -/
def Update.set {α : Type} (u : Update α) (field : String) (value : α) : Update α :=
  if (u.set_.filter (fun p => p.1 = field)).length ≠ 0 then
    { u with set_ := u.set_.map (fun p => if p.1 = field then (field, value) else p) }
  else
    { u with set_ := u.set_ ++ [(field, value)] }

/-- One recorded operation on an `Update`. -/
inductive UpdateOp (α : Type) where
  | addToSet (field : String) (value : α)
  | pull (field : String) (value : α)
  | set (field : String) (value : α)
deriving DecidableEq, Repr

/-- Apply a sequence of recorded operations to an update value. -/
def Update.applyOps {α : Type} (u : Update α) : List (UpdateOp α) → Update α
  | [] => u
  | .addToSet f v :: rest => (u.addToSet f v).applyOps rest
  | .pull f v :: rest => (u.pull f v).applyOps rest
  | .set f v :: rest => (u.set f v).applyOps rest

/-! ## C2: JEM.selectCredential -/

/-- `mongodoc.Credential`, restricted to the fields `selectCredential`
and `CreateModel` read: the path, plus the fields pushed to controllers
(`Type`, `Attributes`, `Revoked`) and the controllers it is deployed
to.  Attribute values are plain strings. -/
structure Credential where
  path : CredentialPath
  type : String
  attributes : List (String × String)
  revoked : Bool
  controllers : List EntityPath
deriving DecidableEq, Repr

/-- The mongo query built by `selectCredential`: by full path when an
explicit path is given, otherwise by the path's user and cloud. -/
def credentialQuery (path : CredentialPath) (user : String) (cloud : String)
    (c : Credential) : Bool :=
  if path.isZero then c.path.user = user && c.path.cloud = cloud
  else c.path = path

/-- `JEM.selectCredential`: choose a credential for the given user and
cloud.  `db` holds the credential documents in the credentials
collection; `canRead` is the caller's ACL predicate applied by
`NewCanReadIter` (only readable documents are yielded); `iterErr` is
the outcome of the iteration itself (`iter.Err()`). -/
def selectCredential (db : List Credential) (canRead : Credential → Bool)
    (iterErr : Option Err) (path : CredentialPath) (user : String)
    (cloud : String) : Except Err (Option Credential) :=
  let creds := ((db.filter (credentialQuery path user cloud)).filter canRead)
  match iterErr with
  | some e => .error (errNotef e)
  | none =>
    match creds with
    | [] =>
      if path.isZero then .ok none
      else .error ⟨.notFound, .none⟩
    | [c] => .ok (some c)
    | _ => .error ⟨.ambiguousChoice, .none⟩

/-! ## C3: JEM.possibleControllers -/

/-- `mongodoc.CloudRegion`, restricted to the fields
`possibleControllers` reads. -/
structure CloudRegion where
  primaryControllers : List EntityPath
  secondaryControllers : List EntityPath
deriving DecidableEq, Repr

/-- `JEM.possibleControllers`: the candidate controllers for a new
model.  `regionLookup` is the result of `j.DB.CloudRegion(ctx, cloud,
region)`; `canRead` is the result of `auth.CheckCanRead` on the region
(`none` meaning access granted); `shuffle` is the process-global
`shuffle` variable, modelled as a reordering function on lists. -/
def possibleControllers (ctlPath : EntityPath)
    (regionLookup : Except Err CloudRegion) (canRead : Option Err)
    (shuffle : List EntityPath → List EntityPath) :
    Except Err (List EntityPath) :=
  if ctlPath.name ≠ "" then .ok [ctlPath]
  else
    match regionLookup with
    | .error e => .error (errMask [.notFound] e)
    | .ok cloudRegion =>
      match canRead with
      | some e => .error (errMask [.unauthorized] e)
      | none =>
        let controllers :=
          if cloudRegion.primaryControllers.length = 0 then
            cloudRegion.secondaryControllers
          else cloudRegion.primaryControllers
        .ok (shuffle controllers)

/-! ## C5: controllerRoot.FindMethod -/

/-- `jujuapi.unauthenticatedFacades`: the facades available before
login. -/
def unauthenticatedFacades : List ((String × Int) × String) :=
  [(("Admin", 3), "Admin"),
   (("Pinger", 1), "Pinger")]

/-- `jujuapi.facades`: the facades available after login, mapping
(facadeName, version) to the controllerRoot method returning the
facade object. -/
def facadesTable : List ((String × Int) × String) :=
  [(("Bundle", 1), "Bundle"),
   (("Cloud", 1), "CloudV1"),
   (("Cloud", 2), "CloudV2"),
   (("Cloud", 3), "CloudV3"),
   (("Cloud", 4), "CloudV4"),
   (("Cloud", 5), "CloudV5"),
   (("Controller", 3), "ControllerV3"),
   (("Controller", 4), "ControllerV4"),
   (("Controller", 5), "ControllerV5"),
   (("Controller", 6), "ControllerV6"),
   (("Controller", 7), "ControllerV7"),
   (("Controller", 8), "ControllerV8"),
   (("Controller", 9), "ControllerV9"),
   (("JIMM", 1), "JIMMV2"),
   (("JIMM", 2), "JIMMV2"),
   (("ModelManager", 2), "ModelManagerV2"),
   (("ModelManager", 3), "ModelManagerV3"),
   (("ModelManager", 4), "ModelManagerAPI"),
   (("ModelManager", 5), "ModelManagerAPI"),
   (("Pinger", 1), "Pinger"),
   (("UserManager", 1), "UserManager"),
   (("ModelSummaryWatcher", 1), "ModelSummaryWatcher")]

/-- Go map access `r.facades[facade{rootName, version}]`: the zero
value `""` when the key is missing. -/
def facadeLookup (tbl : List ((String × Int) × String)) (rootName : String)
    (version : Int) : String :=
  match tbl.find? (fun kv => kv.1.1 = rootName && kv.1.2 = version) with
  | some kv => kv.2
  | none => ""

/-- The possible outcomes of `controllerRoot.FindMethod`. -/
inductive FMResult where
  | requestError (code : String) (message : String)
  | callNotImplemented (rootMethod : String) (version : Int)
  | findOnFacade (objName : String) (version : Int) (methodName : String)
deriving DecidableEq, Repr

/-- `controllerRoot.FindMethod`: dispatch a call.  `tbl` is the table
held in `r.facades` (the unauthenticated table before login, the full
table after).  `jujuparams.CodeNotSupported` is the string
"not supported". -/
def FindMethod (tbl : List ((String × Int) × String)) (rootName : String)
    (version : Int) (methodName : String) : FMResult :=
  if rootName = "Admin" && version < 3 then
    .requestError "not supported" "JIMM does not support login from old clients"
  else
    let rn := facadeLookup tbl rootName version
    if rn = "" then .callNotImplemented rootName version
    else .findOnFacade rn 0 methodName

/-! ## C6: JEM.Credential -/

/-- Modelled from the spec: the authenticator (package
`internal/auth`, not under src/) converts identity-check failures into
`Unauthorized`, so a failed `auth.CheckIsUser` yields an error whose
cause is `params.ErrUnauthorized`. -/
def authIdentityCheckError : Err := ⟨.unauthorized, .none⟩

/-- `JEM.Credential`: retrieve a credential, validating that the
current user may read it.  `dbResult` is the outcome of
`j.DB.Credential(ctx, path)`; `checkIsUser` is the outcome of
`auth.CheckIsUser(ctx, path.User)` and `checkCanRead` the outcome of
`auth.CheckCanRead(ctx, cred)` (`none` meaning the check passed). -/
def credentialGet (dbResult : Except Err Credential)
    (checkIsUser : Option Err) (checkCanRead : Option Err) :
    Except Err Credential :=
  match dbResult with
  | .error e =>
    let e' :=
      if e.cause = .notFound then
        match checkIsUser with
        | some aerr => aerr
        | none => e
      else e
    .error (errMask [.notFound, .unauthorized] e')
  | .ok cred =>
    match checkCanRead with
    | some e => .error (errMask [.unauthorized] e)
    | none => .ok cred

/-! ## C9: JEM.DestroyModel -/

/-- `mongodoc.Model`, restricted to the fields the embedded operations
read and write. -/
structure ModelDoc where
  path : EntityPath
  controller : EntityPath
  uuid : String
  credential : CredentialPath
  creator : String
  creationTime : Nat
  usageSenderCredentials : List Nat
  cloud : String
  cloudRegion : String
  defaultSeries : String
  life : String
  type : String
  providerType : String
deriving DecidableEq, Repr

/-- Database side effects of `JEM.DestroyModel`. -/
inductive DestroyOp where
  | setModelLife (ctl : EntityPath) (uuid : String) (life : String)
  | appendAuditModelDestroyed (uuid : String)
deriving DecidableEq, Repr

/-- `errgo.Mask(err, jujuparams.IsCodeHasPersistentStorage)`: the
cause survives only when the error has the persistent-storage code. -/
def errMaskPersistentStorage (e : Err) : Err :=
  if e.cause = .hasPersistentStorage then e else { e with cause := .other }

/-- `JEM.DestroyModel`: destroy the model on the upstream controller,
then set the local life to dying and append an audit entry.
`destroyErr` is the outcome of the upstream
`modelmanager.Client.DestroyModel` call, `setLifeErr` of
`j.DB.SetModelLife` and `auditErr` of `j.DB.AppendAudit` (`none`
meaning success).  The returned trace holds the local database
operations attempted. -/
def DestroyModel (destroyErr : Option Err) (setLifeErr : Option Err)
    (auditErr : Option Err) (model : ModelDoc) :
    Option Err × List DestroyOp :=
  match destroyErr with
  | some e => (some (errMaskPersistentStorage e), [])
  | none =>
    -- a SetModelLife or AppendAudit failure is logged, not returned
    (none,
     [.setModelLife model.controller model.uuid "dying",
      .appendAuditModelDestroyed model.uuid])

/-! ## C4: JEM.UpdateCredential -/

/-- `JEM.UpdateCredential`'s returned error value.  `updErr` is the
outcome of `j.DB.updateCredential`, `readResult` of the re-read
`j.DB.Credential(ctx, cred.Path)`, `setUpdatesErr` of
`j.DB.setCredentialUpdates` (logged, not surfaced) and `pushResults`
the outcomes of the per-controller `updateControllerCredential` calls
(each failure logged in its goroutine, not surfaced). -/
def updateCredentialResult (updErr : Option Err)
    (readResult : Except Err Credential) (setUpdatesErr : Option Err)
    (pushResults : List (Option Err)) : Option Err :=
  match updErr with
  | some e => some (errNotef e)
  | none =>
    match readResult with
    | .error e => some (errMask [] e)
    | .ok _ => none

/-- One event observed by `UpdateCredential`'s wait loop: a receive on
the buffered completion channel `ch`, or the context's done channel
firing. -/
inductive WaitEvent where
  | recv
  | ctxDone
deriving DecidableEq, Repr

/-- The wait loop at the end of `JEM.UpdateCredential`:
`for n > 0 { select { case <-ch: n--; case <-ctx.Done(): } }`.
Given the number of outstanding pushes and a sequence of observed
events, returns whether the loop has exited by the end of the
sequence.  The `ctxDone` arm has an empty body: it neither decrements
`n` nor leaves the loop. -/
def waitLoop : Nat → List WaitEvent → Bool
  | 0, _ => true
  | _ + 1, [] => false
  | n + 1, .recv :: rest => waitLoop n rest
  | n + 1, .ctxDone :: rest => waitLoop (n + 1) rest

/-! ## C1: JEM.CreateModel -/

/-- `base.ModelInfo`, restricted to the fields `CreateModel` copies
into the reserved row at the reconcile step. -/
structure BaseModelInfo where
  uuid : String
  cloud : String
  cloudRegion : String
  defaultSeries : String
  life : String
  type : String
  providerType : String
deriving DecidableEq, Repr

/-- `jem.CreateModelParams`. -/
structure CreateModelParams where
  path : EntityPath
  controllerPath : EntityPath
  credential : CredentialPath
  cloud : String
  region : String
  attributes : List (String × String)
deriving DecidableEq, Repr

/-- Database side effects of `JEM.CreateModel`.  `addModel` records a
successfully committed insertion of the reservation row. -/
inductive DbOp where
  | addModel (doc : ModelDoc)
  | deleteModel (path : EntityPath)
  | applyModelUpdate (path : EntityPath) (uuid : String) (controller : EntityPath)
  | appendAuditModelCreated (uuid : String) (controllerPath : EntityPath)
deriving DecidableEq, Repr

/-- `fmt.Sprintf("creating-%x", ...)`'s hexadecimal rendering of the
generator output, which is modelled as a natural number. -/
def hexOfNat (n : Nat) : String :=
  String.mk (Nat.toDigits 16 n)

/-- The outcomes of the external calls made during one `CreateModel`
execution.  `createOnController` abstracts
`JEM.createModelOnController` (controller fetch, deprecation check,
dial, credential push and remote create and grant): its error's cause
is `invalidModelParams` exactly when the remote create failed with a
non-retriable bad-request classification. -/
structure CreateModelWorld where
  checkIsUser : Option Err
  usageClientConfigured : Bool
  getCredentialsResult : Except Err (List Nat)
  credDb : List Credential
  credCanRead : Credential → Bool
  credIterErr : Option Err
  regionLookup : Except Err CloudRegion
  regionCanRead : Option Err
  shuffle : List EntityPath → List EntityPath
  addModelErr : Option Err
  createOnController : EntityPath → Except Err BaseModelInfo
  applyErr : Option Err
  appendAuditErr : Option Err
  deleteModelErr : Option Err
  uuidNext : Nat
  now : Nat
  username : String

/-- The controller loop in `CreateModel`: try each candidate in order;
break on the first success; stop with an error when the failure cause
is `errInvalidModelParams` (wrapped by `errgo.Notef`); otherwise log
and continue with the next candidate. -/
def tryEachController (f : EntityPath → Except Err BaseModelInfo) :
    List EntityPath → Except Err (Option (EntityPath × BaseModelInfo))
  | [] => .ok none
  | c :: rest =>
    match f c with
    | .ok mi => .ok (some (c, mi))
    | .error e =>
      if e.cause = .invalidModelParams then .error (errNotef e)
      else tryEachController f rest

/-- The reconcile step of `CreateModel`: the `$set` update applied to
the reserved row once the model exists on controller `ctl`. -/
def reconcileModelDoc (doc : ModelDoc) (ctl : EntityPath)
    (mi : BaseModelInfo) : ModelDoc :=
  { doc with
    uuid := mi.uuid
    controller := ctl
    cloud := mi.cloud
    cloudRegion := mi.cloudRegion
    defaultSeries := mi.defaultSeries
    life := mi.life
    type := mi.type
    providerType := mi.providerType }

/-- The part of `CreateModel` that runs after the reservation row has
been inserted (the body covered by the deferred best-effort delete). -/
def createModelAfterInsert (w : CreateModelWorld)
    (controllers : List EntityPath) (doc : ModelDoc) :
    Except Err ModelDoc × List DbOp :=
  match tryEachController w.createOnController controllers with
  | .error e => (.error e, [])
  | .ok none => (.error ⟨.other, .none⟩, [])
  | .ok (some (ctl, mi)) =>
    if ctl.name = "" then (.error ⟨.other, .none⟩, [])
    else
      match w.applyErr with
      | some e => (.error (errNotef e), [])
      | none =>
        let doc' := reconcileModelDoc doc ctl mi
        -- an AppendAudit failure is logged, not returned
        (.ok doc',
         [.applyModelUpdate doc.path mi.uuid ctl,
          .appendAuditModelCreated mi.uuid ctl])

/-- The usage-credentials step of `CreateModel`: when a usage sender
authorization client is configured, fetch metering credentials for the
owner; otherwise the credentials stay at their zero value. -/
def usageSenderCredentialsStep (w : CreateModelWorld) :
    Except Err (List Nat) :=
  if w.usageClientConfigured then
    match w.getCredentialsResult with
    | .error e => .error (errMask [] e)
    | .ok b => .ok b
  else .ok []

/-- The reservation row `CreateModel` inserts: the requested path, a
temporary unique UUID `creating-<random>`, the creator, the creation
time, the usage-sender credentials, and the selected credential's path
when one was selected. -/
def reservationDoc (w : CreateModelWorld) (p : CreateModelParams)
    (usageSenderCredentials : List Nat) (cred : Option Credential) :
    ModelDoc :=
  { path := p.path
    controller := ⟨"", ""⟩
    uuid := "creating-" ++ hexOfNat w.uuidNext
    credential :=
      match cred with
      | some c => c.path
      | none => ⟨"", "", ""⟩
    creator := w.username
    creationTime := w.now
    usageSenderCredentials := usageSenderCredentials
    cloud := ""
    cloudRegion := ""
    defaultSeries := ""
    life := ""
    type := ""
    providerType := "" }

/-- `JEM.CreateModel`: create a new model.  Returns the result and the
trace of committed model-collection operations: the reservation
insert, the reconcile update, the audit append, and the deferred
best-effort delete that runs whenever an error is returned after the
insert (a failure of the delete itself is only logged, so the delete
operation is recorded regardless of `w.deleteModelErr`). -/
def CreateModel (w : CreateModelWorld) (p : CreateModelParams) :
    Except Err ModelDoc × List DbOp :=
  match w.checkIsUser with
  | some e => (.error (errMask [.unauthorized] e), [])
  | none =>
    match usageSenderCredentialsStep w with
    | .error e => (.error e, [])
    | .ok usageSenderCredentials =>
      match selectCredential w.credDb w.credCanRead w.credIterErr
          p.credential p.path.user p.cloud with
      | .error e => (.error (errMask [.notFound, .ambiguousChoice] e), [])
      | .ok cred =>
        match possibleControllers p.controllerPath w.regionLookup
            w.regionCanRead w.shuffle with
        | .error e => (.error (errMask [.notFound, .unauthorized] e), [])
        | .ok controllers =>
          let doc := reservationDoc w p usageSenderCredentials cred
          match w.addModelErr with
          | some e => (.error (errMask [.alreadyExists] e), [])
          | none =>
            match createModelAfterInsert w controllers doc with
            | (.ok doc', ops) => (.ok doc', .addModel doc :: ops)
            | (.error e, ops) =>
              (.error e, .addModel doc :: ops ++ [.deleteModel doc.path])

/-- Whether an `Except` result is an error. -/
def exceptIsError {α : Type} : Except Err α → Bool
  | .error _ => true
  | .ok _ => false

/-! ## C7: controllerRoot.modelInfo -/

/-- Database side effects of `controllerRoot.modelInfo`.  The boolean
records whether the (best-effort, logged-only) delete itself failed. -/
inductive MIOp where
  | deleteModelWithUUID (ctl : EntityPath) (uuid : String) (failed : Bool)
deriving DecidableEq, Repr

/-- `controllerRoot.modelInfo`: build the model info for one entity.
The wire-level info value is kept abstract in `μ`.  `getModelResult`
is the outcome of `getModel(ctx, r.jem, arg.Tag, auth.CheckCanRead)`;
`docToInfoResult` of `r.modelDocToModelInfo`; `fetchResult` of
`fetchModelInfo` (its error carries the juju wire code);
`deleteErr` of `r.jem.DB.DeleteModelWithUUID` (logged only);
`setUsers` abstracts the `filterUsers` merge of the controller's user
list into the local info. -/
def modelInfo {μ : Type} (getModelResult : Except Err ModelDoc)
    (docToInfoResult : Except Err μ) (localOnly : Bool)
    (fetchResult : Except Err μ) (deleteErr : Option Err)
    (setUsers : μ → μ → μ) : Except Err μ × List MIOp :=
  match getModelResult with
  | .error e =>
    (.error (errMask [.badRequest, .unauthorized, .notFound] e), [])
  | .ok model =>
    match docToInfoResult with
    | .error e => (.error (errMask [] e), [])
    | .ok info =>
      if localOnly then (.ok info, [])
      else
        match fetchResult with
        | .error e =>
          if model.life = "dying" && e.jujuCode = .unauthorized then
            -- the model was dying and now cannot be accessed; assume
            -- it is dead: delete the local row (logged if the delete
            -- fails) and return with cause Unauthorized
            (.error (errWithCausef e .unauthorized),
             [.deleteModelWithUUID model.controller model.uuid
                deleteErr.isSome])
          else
            -- fall back to the locally held information
            (.ok info, [])
        | .ok infoFromController => (.ok (setUsers info infoFromController), [])

/-! ## C8: allMonitor.startMonitors -/

/-- `mongodoc.Controller`, restricted to the fields `startMonitors`
reads.  Times are modelled as integers. -/
structure CtlDoc where
  path : EntityPath
  monitorLeaseOwner : String
  monitorLeaseExpiry : Int
deriving DecidableEq, Repr

/-- `monitor.leaseExpiryDuration` (one minute), in seconds. -/
def leaseExpiryDuration : Int := 60

/-- The outcome of one `acquireLease` call: the compare-and-swap
succeeded with the new expiry, or it was lost to another replica
(an error satisfying `isMonitoringStoppedError`), or it failed with
some other error. -/
inductive AcqOutcome where
  | acquired (newExpiry : Int)
  | stopped
  | failed (e : Err)
deriving DecidableEq, Repr

/-- Modelled from the spec: `acquireLease` (not under src/; only its
caller `startMonitors` is) attempts the compare-and-swap
`AcquireMonitorLease(path, observedExpiry, observedOwner, self,
now+leaseExpiryDuration)`; a lost CAS surfaces as a
monitoring-stopped error.  The attempt itself is recorded as an
`acquireAttempt` operation carrying those arguments, and its outcome
is supplied by the `acquire` oracle. -/
inductive MonOp where
  | acquireAttempt (path : EntityPath) (oldExpiry : Int) (oldOwner : String)
      (newOwner : String) (newExpiry : Int)
  | startMonitor (path : EntityPath) (leaseExpiry : Int)
deriving DecidableEq, Repr

/-- `allMonitor.startMonitors`: one sweep over the controllers
returned by the store.  `ownerId` is this replica; `now` is
`Clock.Now()`; `monitoring` is the set of controllers already
monitored locally; `acquire` gives each `acquireLease` call's outcome.
Returns the final monitoring set (or the sweep's error) and the trace
of lease acquisitions attempted and per-controller monitors started. -/
def startMonitors (ownerId : String) (now : Int)
    (acquire : EntityPath → AcqOutcome) (monitoring : List EntityPath) :
    List CtlDoc → Except Err (List EntityPath) × List MonOp
  | [] => (.ok monitoring, [])
  | ctl :: rest =>
    if ctl.path ∈ monitoring then
      -- already monitoring this controller; nothing to do
      startMonitors ownerId now acquire monitoring rest
    else if ctl.monitorLeaseOwner ≠ ownerId ∧ now < ctl.monitorLeaseExpiry then
      -- someone else already holds the lease
      startMonitors ownerId now acquire monitoring rest
    else
      let att := MonOp.acquireAttempt ctl.path ctl.monitorLeaseExpiry
        ctl.monitorLeaseOwner ownerId (now + leaseExpiryDuration)
      match acquire ctl.path with
      | .stopped =>
        -- someone else got there first; continue with the rest
        let (r, ops) := startMonitors ownerId now acquire monitoring rest
        (r, att :: ops)
      | .failed e => (.error (errNotef e), [att])
      | .acquired newExpiry =>
        -- we have acquired the lease: record it and start a
        -- per-controller monitor
        let (r, ops) :=
          startMonitors ownerId now acquire (monitoring ++ [ctl.path]) rest
        (r, att :: MonOp.startMonitor ctl.path newExpiry :: ops)

/-- The monitoring set a finished sweep returns (`[]` when the sweep
aborted with an error). -/
def okMembers (r : Except Err (List EntityPath)) : List EntityPath :=
  match r with
  | .ok l => l
  | .error _ => []

/-! ## Concrete inputs used by the witness theorems -/

/-- A concrete credential document. -/
def wCred : Credential :=
  ⟨⟨"aws", "bob", "cred1"⟩, "userpass", [("username", "u")], false, []⟩

/-- A concrete cloud region with one primary and one secondary
controller. -/
def wRegion : CloudRegion :=
  ⟨[⟨"admin", "ctl1"⟩], [⟨"admin", "ctl2"⟩]⟩

/-- A concrete `CreateModel` world: every local step succeeds, the one
candidate controller fails with a retriable error, so the execution
errs after the reservation insert. -/
def wCreateWorld : CreateModelWorld :=
  { checkIsUser := none
    usageClientConfigured := false
    getCredentialsResult := .ok []
    credDb := []
    credCanRead := fun _ => true
    credIterErr := none
    regionLookup := .ok wRegion
    regionCanRead := none
    shuffle := fun l => l
    addModelErr := none
    createOnController := fun _ => .error ⟨.other, .none⟩
    applyErr := none
    appendAuditErr := none
    deleteModelErr := none
    uuidNext := 0
    now := 0
    username := "bob" }

/-- A concrete `CreateModel` request naming an explicit controller. -/
def wCreateParams : CreateModelParams :=
  { path := ⟨"bob", "m1"⟩
    controllerPath := ⟨"admin", "ctl1"⟩
    credential := ⟨"", "", ""⟩
    cloud := "aws"
    region := ""
    attributes := [] }

/-- The reservation row inserted in the concrete `CreateModel` run. -/
def wCreateDoc : ModelDoc := reservationDoc wCreateWorld wCreateParams [] none

/-- A concrete dying model row. -/
def wDyingModel : ModelDoc :=
  { path := ⟨"bob", "m1"⟩
    controller := ⟨"admin", "ctl1"⟩
    uuid := "uuid-1"
    credential := ⟨"aws", "bob", "cred1"⟩
    creator := "bob"
    creationTime := 0
    usageSenderCredentials := []
    cloud := "aws"
    cloudRegion := "eu-west-1"
    defaultSeries := "bionic"
    life := "dying"
    type := "iaas"
    providerType := "ec2"
  }

/-- A concrete controller document with an expired foreign lease. -/
def wCtlDoc : CtlDoc := ⟨⟨"admin", "ctl1"⟩, "jem-2", 50⟩

/-- A concrete lease-acquisition oracle that always succeeds. -/
def wAcquire : EntityPath → AcqOutcome := fun _ => .acquired 160

/-!
# Theorems

Helper lemmas first, then one theorem per claim (with its witness or
counterexample where required).
-/

/-! ### Helpers for C10 -/

theorem Update.addToSet_len {α : Type} (u : Update α) (f : String) (v : α) :
    (u.addToSet f v).addToSet_.length = u.addToSet_.length + 1 ∧
    (u.addToSet f v).pull_.length = u.pull_.length ∧
    (u.addToSet f v).set_.length = u.set_.length := by
  simp [Update.addToSet]

theorem Update.pull_len {α : Type} (u : Update α) (f : String) (v : α) :
    (u.pull f v).addToSet_.length = u.addToSet_.length ∧
    (u.pull f v).pull_.length = u.pull_.length + 1 ∧
    (u.pull f v).set_.length = u.set_.length := by
  simp [Update.pull]

/-- The total number of recorded elements grows under any single
operation, except that `set` may replace an existing key, in which
case the `$set` document stays non-empty. -/
theorem Update.op_grows {α : Type} (u : Update α) (op : UpdateOp α) :
    u.addToSet_.length + u.pull_.length + u.set_.length + 1 ≤
      (u.applyOps [op]).addToSet_.length + (u.applyOps [op]).pull_.length +
        (u.applyOps [op]).set_.length ∨
    ((u.applyOps [op]).addToSet_.length = u.addToSet_.length ∧
      (u.applyOps [op]).pull_.length = u.pull_.length ∧
      (u.applyOps [op]).set_.length = u.set_.length ∧
      (u.applyOps [op]).set_.length ≠ 0) := by
  cases op with
  | addToSet f v =>
      left
      have h := Update.addToSet_len u f v
      simp only [Update.applyOps]
      omega
  | pull f v =>
      left
      have h := Update.pull_len u f v
      simp only [Update.applyOps]
      omega
  | set f v =>
      simp only [Update.applyOps]
      unfold Update.set
      by_cases h : (u.set_.filter (fun p => p.1 = f)).length ≠ 0
      · right
        rw [if_pos h]
        refine ⟨rfl, rfl, by simp, ?_⟩
        simp only [List.length_map]
        intro hz
        apply h
        have hnil : u.set_ = [] := List.length_eq_zero.mp hz
        simp [hnil]
      · left
        rw [if_neg h]
        simp only [List.length_append, List.length_cons, List.length_nil]
        omega

/-- Applying operations never decreases the total number of recorded
elements, and a non-empty operation list leaves at least one element. -/
theorem Update.applyOps_notZero {α : Type} (u : Update α) (ops : List (UpdateOp α)) :
    u.addToSet_.length + u.pull_.length + u.set_.length ≤
      (u.applyOps ops).addToSet_.length + (u.applyOps ops).pull_.length +
        (u.applyOps ops).set_.length ∧
    (ops ≠ [] →
      (u.applyOps ops).addToSet_.length + (u.applyOps ops).pull_.length +
        (u.applyOps ops).set_.length ≠ 0) := by
  induction ops generalizing u with
  | nil => simp [Update.applyOps]
  | cons op rest ih =>
      have hop := Update.op_grows u op
      have hstep : u.applyOps (op :: rest) = (u.applyOps [op]).applyOps rest := by
        cases op <;> simp [Update.applyOps]
      rw [hstep]
      have hrest := ih (u.applyOps [op])
      constructor
      · rcases hop with h | ⟨h1, h2, h3, _⟩
        · omega
        · omega
      · intro _
        rcases hop with h | ⟨h1, h2, h3, h4⟩
        · omega
        · omega

theorem update_isZero_iff {α : Type} (u : Update α) :
    u.isZero = true ↔
      u.addToSet_.length + u.pull_.length + u.set_.length = 0 := by
  simp only [Update.isZero, Bool.and_eq_true, decide_eq_true_eq]
  omega

/-! ### C10 -/

/-- C10: `jimmdb.Update.IsZero` returns true exactly when no AddToSet,
Pull, or Set operation has been recorded: a freshly constructed Update
is zero, an Update built by a sequence of recorded operations is zero
iff that sequence is empty, and after any single call to AddToSet,
Pull, or Set the update is non-zero. -/
theorem c10_update_isZero (α : Type) :
    (Update.empty (α := α)).isZero = true ∧
    (∀ ops : List (UpdateOp α),
      ((Update.empty (α := α)).applyOps ops).isZero = true ↔ ops = []) ∧
    ∀ (u : Update α) (f : String) (v : α),
      (u.addToSet f v).isZero = false ∧ (u.pull f v).isZero = false ∧
        (u.set f v).isZero = false := by
  refine ⟨by simp [Update.empty, Update.isZero], ?_, ?_⟩
  · intro ops
    constructor
    · intro h
      by_contra hne
      have h2 := (Update.applyOps_notZero (Update.empty (α := α)) ops).2 hne
      have h3 := (update_isZero_iff _).mp h
      omega
    · rintro rfl
      simp [Update.applyOps, Update.empty, Update.isZero]
  · intro u f v
    refine ⟨?_, ?_, ?_⟩
    · rw [Bool.eq_false_iff]
      intro h
      have h3 := (update_isZero_iff _).mp h
      have hl := Update.addToSet_len u f v
      omega
    · rw [Bool.eq_false_iff]
      intro h
      have h3 := (update_isZero_iff _).mp h
      have hl := Update.pull_len u f v
      omega
    · rw [Bool.eq_false_iff]
      intro h
      have h3 := (update_isZero_iff _).mp h
      have hg := Update.op_grows u (UpdateOp.set f v)
      have happ : u.applyOps [UpdateOp.set f v] = u.set f v := by
        simp [Update.applyOps]
      rw [happ] at hg
      rcases hg with hg | ⟨h1, h2, hsl, hnz⟩
      · omega
      · omega

/-- Witness for C10: a fresh update is zero and becomes non-zero after
one AddToSet call. -/
theorem c10_witness :
    (Update.empty (α := Nat)).isZero = true ∧
    ((Update.empty (α := Nat)).addToSet "controllers" 3).isZero = false := by
  have h := c10_update_isZero Nat
  exact ⟨h.1, (h.2.2 Update.empty "controllers" 3).1⟩

/-! ### C2 -/

/-- C2: `JEM.selectCredential` behaves as a four-way case split: with
an explicit credential path the query is by that path, otherwise by
the request's (owner, cloud); zero readable matches with an empty
input path yields no credential and no error; zero matches with an
explicit path yields `NotFound`; exactly one match is used; more than
one match yields `AmbiguousChoice`. -/
theorem c2_selectCredential_cases (db : List Credential)
    (canRead : Credential → Bool) (path : CredentialPath)
    (user cloud : String) :
    (((db.filter (credentialQuery path user cloud)).filter canRead) =
        if path.isZero then
          ((db.filter
            (fun c => c.path.user = user && c.path.cloud = cloud)).filter
              canRead)
        else ((db.filter (fun c => c.path = path)).filter canRead)) ∧
    (((db.filter (credentialQuery path user cloud)).filter canRead) = [] →
      path.isZero = true →
      selectCredential db canRead none path user cloud = .ok none) ∧
    (((db.filter (credentialQuery path user cloud)).filter canRead) = [] →
      path.isZero = false →
      selectCredential db canRead none path user cloud =
        .error ⟨.notFound, .none⟩) ∧
    (∀ c, ((db.filter (credentialQuery path user cloud)).filter canRead) = [c] →
      selectCredential db canRead none path user cloud = .ok (some c)) ∧
    (2 ≤ (((db.filter (credentialQuery path user cloud)).filter canRead)).length →
      selectCredential db canRead none path user cloud =
        .error ⟨.ambiguousChoice, .none⟩) := by
  refine ⟨?_, ?_, ?_, ?_, ?_⟩
  · by_cases hiz : path.isZero <;> simp [credentialQuery, hiz]
  · intro h hiz
    simp [selectCredential, h, hiz]
  · intro h hiz
    simp [selectCredential, h, hiz]
  · intro c h
    simp [selectCredential, h]
  · intro h
    rcases hm : ((db.filter (credentialQuery path user cloud)).filter canRead) with
      _ | ⟨a, _ | ⟨b, t⟩⟩
    · rw [hm] at h
      simp at h
    · rw [hm] at h
      simp at h
    · simp [selectCredential, hm]

/-- Witness for C2: a single readable credential matching the
empty-path query is selected. -/
theorem c2_witness :
    selectCredential [wCred] (fun _ => true) none ⟨"", "", ""⟩ "bob" "aws" =
      .ok (some wCred) := by
  have h := c2_selectCredential_cases [wCred] (fun _ => true) ⟨"", "", ""⟩
    "bob" "aws"
  exact h.2.2.2.1 wCred (by decide)

/-! ### C3 -/

/-- C3: the candidate controller list of `JEM.possibleControllers` is
exactly the named controller when `controllerPath` is set; otherwise
it is derived from the (cloud, region) row — primary controllers
preferred over secondary — and shuffled (a permutation of the chosen
list), and read access on the region is required for the list to be
returned. -/
theorem c3_possibleControllers_cases (ctlPath : EntityPath)
    (regionLookup : Except Err CloudRegion) (canRead : Option Err)
    (shuffle : List EntityPath → List EntityPath)
    (hshuffle : ∀ l, (shuffle l).Perm l) :
    (ctlPath.name ≠ "" →
      possibleControllers ctlPath regionLookup canRead shuffle =
        .ok [ctlPath]) ∧
    (∀ cr, ctlPath.name = "" → regionLookup = .ok cr → canRead = none →
      possibleControllers ctlPath regionLookup canRead shuffle =
        .ok (shuffle (if cr.primaryControllers.length = 0 then
          cr.secondaryControllers else cr.primaryControllers)) ∧
      (shuffle (if cr.primaryControllers.length = 0 then
          cr.secondaryControllers else cr.primaryControllers)).Perm
        (if cr.primaryControllers.length = 0 then
          cr.secondaryControllers else cr.primaryControllers)) ∧
    (∀ cr e, ctlPath.name = "" → regionLookup = .ok cr → canRead = some e →
      possibleControllers ctlPath regionLookup canRead shuffle =
        .error (errMask [.unauthorized] e)) := by
  refine ⟨?_, ?_, ?_⟩
  · intro h
    simp [possibleControllers, h]
  · intro cr h hr hc
    subst hr hc
    exact ⟨by simp [possibleControllers, h], hshuffle _⟩
  · intro cr e h hr hc
    subst hr hc
    simp [possibleControllers, h]

/-- Witness for C3: with an unset controller path, a readable region
and the identity shuffle, the primary controllers are returned. -/
theorem c3_witness :
    possibleControllers ⟨"bob", ""⟩ (.ok wRegion) none (fun l => l) =
      .ok [⟨"admin", "ctl1"⟩] := by
  have h := c3_possibleControllers_cases ⟨"bob", ""⟩ (.ok wRegion) none
    (fun l => l) (fun l => List.Perm.refl l)
  have h2 := (h.2.1 wRegion rfl rfl rfl).1
  rw [h2]
  rfl

/-! ### C5 -/

/-- C5: for every method name, every version below 3, and every facade
table (hence in both the unauthenticated and the authenticated
connection state), `controllerRoot.FindMethod` on rootName "Admin"
returns the distinguished NotSupported request error; in particular it
never consults the facade table nor produces a method lookup. -/
theorem c5_findMethod_admin_pre3 (tbl : List ((String × Int) × String))
    (methodName : String) (v : Int) (hv : v < 3) :
    FindMethod tbl "Admin" v methodName =
      .requestError "not supported"
        "JIMM does not support login from old clients" := by
  simp [FindMethod, hv]

/-- Witness for C5: an `Admin` v2 `Login` call on the authenticated
facade table is rejected as not supported. -/
theorem c5_witness :
    FindMethod facadesTable "Admin" 2 "Login" =
      .requestError "not supported"
        "JIMM does not support login from old clients" :=
  c5_findMethod_admin_pre3 facadesTable "Login" 2 (by decide)

/-! ### C6 -/

/-- C6: when no credential row exists (the database lookup fails with
cause NotFound) and the caller's identity check for the path's user
fails with an Unauthorized error, `JEM.Credential` returns that
Unauthorized error — never a NotFound one — hiding the existence of
credentials in other users' namespaces. -/
theorem c6_credential_no_existence_oracle (e aerr : Err)
    (checkCanRead : Option Err) (hnf : e.cause = .notFound)
    (ha : aerr.cause = .unauthorized) :
    credentialGet (.error e) (some aerr) checkCanRead = .error aerr ∧
    aerr.cause = .unauthorized ∧ aerr.cause ≠ .notFound := by
  refine ⟨?_, ha, by simp [ha]⟩
  simp [credentialGet, hnf, errMask, ha]

/-- Witness for C6: a missing credential row plus a failed identity
check yields the identity check's Unauthorized error. -/
theorem c6_witness :
    credentialGet (.error ⟨.notFound, .none⟩) (some authIdentityCheckError)
        none = .error authIdentityCheckError ∧
    authIdentityCheckError.cause = .unauthorized ∧
    authIdentityCheckError.cause ≠ .notFound :=
  c6_credential_no_existence_oracle ⟨.notFound, .none⟩ authIdentityCheckError
    none rfl rfl

/-! ### C9 -/

/-- C9: `JEM.DestroyModel` is atomic with respect to local state on
upstream failure and tolerant of local failure on upstream success:
an upstream destroy error is returned with no local life update and no
audit append; on upstream success the call returns nil and attempts
both local operations, regardless of whether they fail (their failures
are only logged). -/
theorem c9_destroyModel_atomicity (m : ModelDoc) :
    (∀ (e : Err) (setLifeErr auditErr : Option Err),
      DestroyModel (some e) setLifeErr auditErr m =
        (some (errMaskPersistentStorage e), [])) ∧
    (∀ setLifeErr auditErr : Option Err,
      (DestroyModel none setLifeErr auditErr m).1 = none ∧
      (DestroyModel none setLifeErr auditErr m).2 =
        [.setModelLife m.controller m.uuid "dying",
         .appendAuditModelDestroyed m.uuid]) := by
  exact ⟨fun e setLifeErr auditErr => rfl,
    fun setLifeErr auditErr => ⟨rfl, rfl⟩⟩

/-- Witness for C9: a concrete upstream failure yields the masked
error with no local operations, and a concrete local failure after
upstream success still yields a nil return. -/
theorem c9_witness :
    DestroyModel (some ⟨.other, .none⟩) none none wDyingModel =
      (some (errMaskPersistentStorage ⟨.other, .none⟩), []) ∧
    (DestroyModel none (some ⟨.other, .none⟩) none wDyingModel).1 = none := by
  have h := c9_destroyModel_atomicity wDyingModel
  exact ⟨h.1 ⟨.other, .none⟩ none none, (h.2 (some ⟨.other, .none⟩) none).1⟩

/-! ### C4 -/

/-- C4 (divergence witness): once the local database operations
succeed, `JEM.UpdateCredential` returns nil regardless of the
per-controller push outcomes; but its wait loop exits exactly when it
has received one completion per push — a context-done event never
decrements the counter nor leaves the loop, so the call does NOT
return at context cancellation, contradicting the claim (and the
code's own comment). -/
theorem c4_updateCredential_cancellation (n : Nat) (evs : List WaitEvent) :
    (∀ (c : Credential) (setUpdatesErr : Option Err)
        (pushResults : List (Option Err)),
      updateCredentialResult none (.ok c) setUpdatesErr pushResults = none) ∧
    (waitLoop n evs = true ↔ n ≤ evs.count .recv) := by
  refine ⟨fun c s p => rfl, ?_⟩
  induction evs generalizing n with
  | nil =>
    cases n with
    | zero => simp [waitLoop]
    | succ k => simp [waitLoop]
  | cons e rest ih =>
    cases n with
    | zero => simp [waitLoop]
    | succ k =>
      cases e with
      | recv =>
        have hstep : waitLoop (k + 1) (WaitEvent.recv :: rest) =
            waitLoop k rest := rfl
        rw [hstep, ih k, List.count_cons]
        simp
      | ctxDone =>
        have hstep : waitLoop (k + 1) (WaitEvent.ctxDone :: rest) =
            waitLoop (k + 1) rest := rfl
        rw [hstep, ih (k + 1), List.count_cons]
        simp

/-- Witness for C4: with one outstanding push and only
context-cancellation events, the wait loop has not exited; and a push
failure still yields a nil return. -/
theorem c4_witness :
    waitLoop 1 [WaitEvent.ctxDone, WaitEvent.ctxDone] = false ∧
    updateCredentialResult none (.ok wCred) none [some ⟨.other, .none⟩] =
      none := by
  have h := c4_updateCredential_cancellation 1
    [WaitEvent.ctxDone, WaitEvent.ctxDone]
  refine ⟨?_, h.1 wCred none [some ⟨.other, .none⟩]⟩
  rw [Bool.eq_false_iff]
  intro ht
  exact absurd (h.2.mp ht) (by decide)

/-! ### C7 -/

/-- C7: when a model's local life is "dying" and the upstream
`ModelInfo` query fails with the Unauthorized wire code,
`controllerRoot.modelInfo` deletes the local model row by
(controller, UUID) (best-effort) and returns an error whose cause is
Unauthorized. -/
theorem c7_modelInfo_dying_reap {μ : Type} (model : ModelDoc) (info : μ)
    (e : Err) (deleteErr : Option Err) (setUsers : μ → μ → μ)
    (hlife : model.life = "dying") (hcode : e.jujuCode = .unauthorized) :
    modelInfo (.ok model) (.ok info) false (.error e) deleteErr setUsers =
      (.error (errWithCausef e .unauthorized),
       [.deleteModelWithUUID model.controller model.uuid
          deleteErr.isSome]) ∧
    (errWithCausef e .unauthorized).cause = .unauthorized := by
  refine ⟨?_, rfl⟩
  simp [modelInfo, hlife, hcode]

/-- Witness for C7: a concrete dying model whose upstream query fails
as unauthorized is deleted locally and the caller sees Unauthorized. -/
theorem c7_witness :
    modelInfo (μ := Nat) (.ok wDyingModel) (.ok 7) false
        (.error ⟨.other, .unauthorized⟩) none (fun a _ => a) =
      (.error (errWithCausef ⟨.other, .unauthorized⟩ .unauthorized),
       [.deleteModelWithUUID wDyingModel.controller wDyingModel.uuid
          (Option.isSome (none : Option Err))]) ∧
    (errWithCausef ⟨.other, .unauthorized⟩ .unauthorized).cause =
      .unauthorized :=
  c7_modelInfo_dying_reap wDyingModel 7 ⟨.other, .unauthorized⟩ none
    (fun a _ => a) rfl rfl

/-! ### Helpers for C1 -/

/-- The post-insert phase never records a model insertion of its
own. -/
theorem createModelAfterInsert_no_addModel (w : CreateModelWorld)
    (controllers : List EntityPath) (doc d : ModelDoc) :
    DbOp.addModel d ∉ (createModelAfterInsert w controllers doc).2 := by
  unfold createModelAfterInsert
  cases h : tryEachController w.createOnController controllers with
  | error e => simp
  | ok r =>
    cases r with
    | none => simp
    | some cm =>
      obtain ⟨ctl, mi⟩ := cm
      by_cases hn : ctl.name = ""
      · simp [hn]
      · cases ha : w.applyErr with
        | some e => simp [hn, ha]
        | none => simp [hn, ha]

/-- Shape of a `CreateModel` run: either it fails before the
reservation insert and commits nothing, or its trace starts with the
insertion of the reservation row (whose UUID is the placeholder) and,
exactly when the run returns an error, ends with the best-effort
delete of that row. -/
theorem createModel_shape (w : CreateModelWorld) (p : CreateModelParams) :
    (CreateModel w p).2 = [] ∨
    ∃ (doc : ModelDoc) (rest : List DbOp),
      doc.uuid = "creating-" ++ hexOfNat w.uuidNext ∧
      (∀ d, DbOp.addModel d ∉ rest) ∧
      ((exceptIsError (CreateModel w p).1 = false ∧
        (CreateModel w p).2 = .addModel doc :: rest) ∨
       (exceptIsError (CreateModel w p).1 = true ∧
        (CreateModel w p).2 =
          .addModel doc :: (rest ++ [.deleteModel doc.path]))) := by
  cases hciu : w.checkIsUser with
  | some e => left; simp [CreateModel, hciu]
  | none =>
  cases hu : usageSenderCredentialsStep w with
  | error e => left; simp [CreateModel, hciu, hu]
  | ok b =>
  cases hsel : selectCredential w.credDb w.credCanRead w.credIterErr
      p.credential p.path.user p.cloud with
  | error e => left; simp [CreateModel, hciu, hu, hsel]
  | ok cred =>
  cases hpc : possibleControllers p.controllerPath w.regionLookup
      w.regionCanRead w.shuffle with
  | error e => left; simp [CreateModel, hciu, hu, hsel, hpc]
  | ok controllers =>
  cases hadd : w.addModelErr with
  | some e => left; simp [CreateModel, hciu, hu, hsel, hpc, hadd]
  | none =>
    right
    rcases hai : createModelAfterInsert w controllers
      (reservationDoc w p b cred) with ⟨r, ops⟩
    refine ⟨reservationDoc w p b cred, ops, rfl, ?_, ?_⟩
    · intro d
      have hh := createModelAfterInsert_no_addModel w controllers
        (reservationDoc w p b cred) d
      rw [hai] at hh
      exact hh
    · cases r with
      | ok doc' =>
        left
        constructor <;>
          simp [CreateModel, hciu, hu, hsel, hpc, hadd, hai, exceptIsError]
      | error e =>
        right
        constructor <;>
          simp [CreateModel, hciu, hu, hsel, hpc, hadd, hai, exceptIsError]

/-! ### C1 -/

/-- C1: every reservation row `CreateModel` inserts carries the
placeholder UUID `creating-<random>` (the hex rendering of the
process-local generator's output), and whenever the call returns an
error after that insertion the trace also contains the best-effort
delete of the reserved row, so no error return leaves a committed row
behind. -/
theorem c1_createModel_reservation (w : CreateModelWorld)
    (p : CreateModelParams) (doc : ModelDoc)
    (hmem : DbOp.addModel doc ∈ (CreateModel w p).2) :
    doc.uuid = "creating-" ++ hexOfNat w.uuidNext ∧
    (exceptIsError (CreateModel w p).1 = true →
      DbOp.deleteModel doc.path ∈ (CreateModel w p).2) := by
  rcases createModel_shape w p with hnil | ⟨d0, rest, huuid, hno, hcase⟩
  · rw [hnil] at hmem
    simp at hmem
  · rcases hcase with ⟨hok, heq⟩ | ⟨herr, heq⟩
    · rw [heq] at hmem
      rcases List.mem_cons.mp hmem with hh | ht
      · injection hh with hd
        refine ⟨by rw [hd]; exact huuid, fun hc => ?_⟩
        rw [hok] at hc
        cases hc
      · exact absurd ht (hno doc)
    · rw [heq] at hmem
      rcases List.mem_cons.mp hmem with hh | ht
      · injection hh with hd
        refine ⟨by rw [hd]; exact huuid, fun _ => ?_⟩
        rw [heq, hd]
        simp
      · rcases List.mem_append.mp ht with h1 | h2
        · exact absurd h1 (hno doc)
        · simp at h2

/-- Witness for C1: a concrete run in which the only candidate
controller fails retriably, so the call errs after the reservation
insert and the trace holds the insert followed by the delete. -/
theorem c1_witness :
    DbOp.addModel wCreateDoc ∈ (CreateModel wCreateWorld wCreateParams).2 ∧
    (wCreateDoc.uuid = "creating-" ++ hexOfNat wCreateWorld.uuidNext ∧
      (exceptIsError (CreateModel wCreateWorld wCreateParams).1 = true →
        DbOp.deleteModel wCreateDoc.path ∈
          (CreateModel wCreateWorld wCreateParams).2)) := by
  have hlist : (CreateModel wCreateWorld wCreateParams).2 =
      [DbOp.addModel wCreateDoc, DbOp.deleteModel wCreateDoc.path] := rfl
  have hmem : DbOp.addModel wCreateDoc ∈
      (CreateModel wCreateWorld wCreateParams).2 := by
    rw [hlist]
    exact List.mem_cons_self _ _
  exact ⟨hmem,
    c1_createModel_reservation wCreateWorld wCreateParams wCreateDoc hmem⟩

/-! ### Helpers for C8 -/

/-- Inversion for lease-acquisition attempts: every `acquireAttempt`
in a sweep's trace is for a controller in the swept list that was not
already monitored, carries exactly the observed lease expiry and
owner, the local owner id and `now + leaseExpiryDuration`, and only
occurs when the lease was not held live by a different owner. -/
theorem startMonitors_attempt_inv (o : String) (now : Int)
    (acq : EntityPath → AcqOutcome) :
    ∀ (ctls : List CtlDoc) (monitoring : List EntityPath)
      (q : EntityPath) (oe : Int) (oo no : String) (ne : Int),
      MonOp.acquireAttempt q oe oo no ne ∈
        (startMonitors o now acq monitoring ctls).2 →
      q ∉ monitoring ∧
      ∃ ctl, ctl ∈ ctls ∧ q = ctl.path ∧ oe = ctl.monitorLeaseExpiry ∧
        oo = ctl.monitorLeaseOwner ∧ no = o ∧
        ne = now + leaseExpiryDuration ∧
        (ctl.monitorLeaseOwner = o ∨ ¬ now < ctl.monitorLeaseExpiry) := by
  intro ctls
  induction ctls with
  | nil =>
    intro monitoring q oe oo no ne h
    simp [startMonitors] at h
  | cons ctl rest ih =>
    intro monitoring q oe oo no ne h
    simp only [startMonitors] at h
    by_cases h1 : ctl.path ∈ monitoring
    · rw [if_pos h1] at h
      obtain ⟨hq, c, hc1, hc2, hc3, hc4, hc5, hc6, hc7⟩ :=
        ih monitoring q oe oo no ne h
      exact ⟨hq, c, List.mem_cons_of_mem _ hc1, hc2, hc3, hc4, hc5, hc6, hc7⟩
    · rw [if_neg h1] at h
      by_cases h2 : ctl.monitorLeaseOwner ≠ o ∧ now < ctl.monitorLeaseExpiry
      · rw [if_pos h2] at h
        obtain ⟨hq, c, hc1, hc2, hc3, hc4, hc5, hc6, hc7⟩ :=
          ih monitoring q oe oo no ne h
        exact ⟨hq, c, List.mem_cons_of_mem _ hc1, hc2, hc3, hc4, hc5, hc6, hc7⟩
      · cases hacq : acq ctl.path with
        | stopped =>
          rcases hrec : startMonitors o now acq monitoring rest with ⟨r, ops⟩
          rw [if_neg h2] at h
          simp only [hacq, hrec] at h
          rcases List.mem_cons.mp h with hh | ht
          · injection hh with e1 e2 e3 e4 e5
            refine ⟨e1 ▸ h1, ctl, List.mem_cons_self _ _, e1, e2, e3, e4, e5,
              by tauto⟩
          · have hr := ih monitoring q oe oo no ne (by rw [hrec]; exact ht)
            obtain ⟨hq, c, hc1, hc2, hc3, hc4, hc5, hc6, hc7⟩ := hr
            exact ⟨hq, c, List.mem_cons_of_mem _ hc1, hc2, hc3, hc4, hc5,
              hc6, hc7⟩
        | failed e =>
          rw [if_neg h2] at h
          simp only [hacq] at h
          rcases List.mem_singleton.mp h with hh
          injection hh with e1 e2 e3 e4 e5
          refine ⟨e1 ▸ h1, ctl, List.mem_cons_self _ _, e1, e2, e3, e4, e5,
            by tauto⟩
        | acquired newExpiry =>
          rcases hrec : startMonitors o now acq (monitoring ++ [ctl.path])
            rest with ⟨r, ops⟩
          rw [if_neg h2] at h
          simp only [hacq, hrec] at h
          rcases List.mem_cons.mp h with hh | ht
          · injection hh with e1 e2 e3 e4 e5
            refine ⟨e1 ▸ h1, ctl, List.mem_cons_self _ _, e1, e2, e3, e4, e5,
              by tauto⟩
          · rcases List.mem_cons.mp ht with hh2 | ht2
            · simp at hh2
            · have hr := ih (monitoring ++ [ctl.path]) q oe oo no ne
                (by rw [hrec]; exact ht2)
              obtain ⟨hq, c, hc1, hc2, hc3, hc4, hc5, hc6, hc7⟩ := hr
              refine ⟨fun hm => hq (List.mem_append_left _ hm), c,
                List.mem_cons_of_mem _ hc1, hc2, hc3, hc4, hc5, hc6, hc7⟩

/-- A per-controller monitor is started only when the corresponding
lease acquisition succeeded with that lease expiry. -/
theorem startMonitors_start_acquired (o : String) (now : Int)
    (acq : EntityPath → AcqOutcome) :
    ∀ (ctls : List CtlDoc) (monitoring : List EntityPath)
      (p : EntityPath) (ne : Int),
      MonOp.startMonitor p ne ∈ (startMonitors o now acq monitoring ctls).2 →
      acq p = .acquired ne := by
  intro ctls
  induction ctls with
  | nil =>
    intro monitoring p ne h
    simp [startMonitors] at h
  | cons ctl rest ih =>
    intro monitoring p ne h
    simp only [startMonitors] at h
    by_cases h1 : ctl.path ∈ monitoring
    · rw [if_pos h1] at h
      exact ih monitoring p ne h
    · rw [if_neg h1] at h
      by_cases h2 : ctl.monitorLeaseOwner ≠ o ∧ now < ctl.monitorLeaseExpiry
      · rw [if_pos h2] at h
        exact ih monitoring p ne h
      · cases hacq : acq ctl.path with
        | stopped =>
          rcases hrec : startMonitors o now acq monitoring rest with ⟨r, ops⟩
          rw [if_neg h2] at h
          simp only [hacq, hrec] at h
          rcases List.mem_cons.mp h with hh | ht
          · simp at hh
          · exact ih monitoring p ne (by rw [hrec]; exact ht)
        | failed e =>
          rw [if_neg h2] at h
          simp only [hacq] at h
          rcases List.mem_singleton.mp h with hh
          simp at hh
        | acquired newExpiry =>
          rcases hrec : startMonitors o now acq (monitoring ++ [ctl.path])
            rest with ⟨r, ops⟩
          rw [if_neg h2] at h
          simp only [hacq, hrec] at h
          rcases List.mem_cons.mp h with hh | ht
          · simp at hh
          · rcases List.mem_cons.mp ht with hh2 | ht2
            · injection hh2 with e1 e2
              rw [e1, e2]
              exact hacq
            · exact ih (monitoring ++ [ctl.path]) p ne (by rw [hrec]; exact ht2)

/-- When no lease acquisition fails hard, the sweep completes with an
updated monitoring set containing exactly the initially monitored
controllers plus those for which a per-controller monitor was
started. -/
theorem startMonitors_final (o : String) (now : Int)
    (acq : EntityPath → AcqOutcome) (hok : ∀ q e, acq q ≠ .failed e) :
    ∀ (ctls : List CtlDoc) (monitoring : List EntityPath),
      (startMonitors o now acq monitoring ctls).1 =
        .ok (okMembers (startMonitors o now acq monitoring ctls).1) ∧
      ∀ p, p ∈ okMembers (startMonitors o now acq monitoring ctls).1 ↔
        p ∈ monitoring ∨ ∃ ne, MonOp.startMonitor p ne ∈
          (startMonitors o now acq monitoring ctls).2 := by
  intro ctls
  induction ctls with
  | nil =>
    intro monitoring
    constructor
    · simp [startMonitors, okMembers]
    · intro p
      simp [startMonitors, okMembers]
  | cons ctl rest ih =>
    intro monitoring
    by_cases h1 : ctl.path ∈ monitoring
    · have hred : startMonitors o now acq monitoring (ctl :: rest) =
          startMonitors o now acq monitoring rest := by
        simp only [startMonitors]
        rw [if_pos h1]
      rw [hred]
      exact ih monitoring
    · by_cases h2 : ctl.monitorLeaseOwner ≠ o ∧ now < ctl.monitorLeaseExpiry
      · have hred : startMonitors o now acq monitoring (ctl :: rest) =
            startMonitors o now acq monitoring rest := by
          simp only [startMonitors]
          rw [if_neg h1, if_pos h2]
        rw [hred]
        exact ih monitoring
      · cases hacq : acq ctl.path with
        | stopped =>
          rcases hrec : startMonitors o now acq monitoring rest with ⟨r, ops⟩
          have hred : startMonitors o now acq monitoring (ctl :: rest) =
              (r, MonOp.acquireAttempt ctl.path ctl.monitorLeaseExpiry
                ctl.monitorLeaseOwner o (now + leaseExpiryDuration) :: ops) := by
            simp only [startMonitors]
            rw [if_neg h1, if_neg h2]
            simp only [hacq, hrec]
          rw [hred]
          have ihm := ih monitoring
          rw [hrec] at ihm
          refine ⟨ihm.1, fun p => ?_⟩
          rw [(ihm.2 p)]
          simp
        | failed e => exact absurd hacq (hok ctl.path e)
        | acquired newExpiry =>
          rcases hrec : startMonitors o now acq (monitoring ++ [ctl.path])
            rest with ⟨r, ops⟩
          have hred : startMonitors o now acq monitoring (ctl :: rest) =
              (r, MonOp.acquireAttempt ctl.path ctl.monitorLeaseExpiry
                ctl.monitorLeaseOwner o (now + leaseExpiryDuration) ::
                MonOp.startMonitor ctl.path newExpiry :: ops) := by
            simp only [startMonitors]
            rw [if_neg h1, if_neg h2]
            simp only [hacq, hrec]
          rw [hred]
          have ihm := ih (monitoring ++ [ctl.path])
          rw [hrec] at ihm
          refine ⟨ihm.1, fun p => ?_⟩
          rw [(ihm.2 p)]
          constructor
          · intro h
            rcases h with hm | ⟨ne, hne⟩
            · rcases List.mem_append.mp hm with hm1 | hm2
              · exact Or.inl hm1
              · rw [List.mem_singleton] at hm2
                refine Or.inr ⟨newExpiry, ?_⟩
                rw [hm2]
                exact List.mem_cons_of_mem _ (List.mem_cons_self _ _)
            · exact Or.inr ⟨ne,
                List.mem_cons_of_mem _ (List.mem_cons_of_mem _ hne)⟩
          · intro h
            rcases h with hm | ⟨ne, hne⟩
            · exact Or.inl (List.mem_append_left _ hm)
            · rcases List.mem_cons.mp hne with hc1 | hc1
              · simp at hc1
              · rcases List.mem_cons.mp hc1 with hc2 | hc2
                · injection hc2 with e1 e2
                  refine Or.inl (List.mem_append_right _ ?_)
                  rw [e1]
                  exact List.mem_singleton.mpr rfl
                · exact Or.inr ⟨ne, hc2⟩

/-- For every swept controller that is not already monitored and whose
lease is not held live by a different owner, the CAS is attempted with
the observed lease data, and when the CAS succeeds a per-controller
monitor is started. -/
theorem startMonitors_eligible (o : String) (now : Int)
    (acq : EntityPath → AcqOutcome) (hok : ∀ q e, acq q ≠ .failed e) :
    ∀ (ctls : List CtlDoc) (monitoring : List EntityPath) (ctl : CtlDoc),
      ctl ∈ ctls → (ctls.map CtlDoc.path).Nodup →
      ctl.path ∉ monitoring →
      (ctl.monitorLeaseOwner = o ∨ ¬ now < ctl.monitorLeaseExpiry) →
      MonOp.acquireAttempt ctl.path ctl.monitorLeaseExpiry
          ctl.monitorLeaseOwner o (now + leaseExpiryDuration) ∈
        (startMonitors o now acq monitoring ctls).2 ∧
      ∀ ne, acq ctl.path = .acquired ne →
        MonOp.startMonitor ctl.path ne ∈
          (startMonitors o now acq monitoring ctls).2 := by
  intro ctls
  induction ctls with
  | nil =>
    intro monitoring ctl hmem
    simp at hmem
  | cons hd rest ih =>
    intro monitoring ctl hmem hnd hnm hg
    have hndtl : (rest.map CtlDoc.path).Nodup :=
      (List.nodup_cons.mp hnd).2
    rcases List.mem_cons.mp hmem with rfl | htl
    · -- the controller is the head of the list
      have hg2 : ¬ (ctl.monitorLeaseOwner ≠ o ∧
          now < ctl.monitorLeaseExpiry) := by tauto
      cases hacq : acq ctl.path with
      | stopped =>
        rcases hrec : startMonitors o now acq monitoring rest with ⟨r, ops⟩
        have hred : startMonitors o now acq monitoring (ctl :: rest) =
            (r, MonOp.acquireAttempt ctl.path ctl.monitorLeaseExpiry
              ctl.monitorLeaseOwner o (now + leaseExpiryDuration) :: ops) := by
          simp only [startMonitors]
          rw [if_neg hnm, if_neg hg2]
          simp only [hacq, hrec]
        rw [hred]
        refine ⟨List.mem_cons_self _ _, fun ne h' => ?_⟩
        cases h'
      | failed e => exact absurd hacq (hok ctl.path e)
      | acquired newExpiry =>
        rcases hrec : startMonitors o now acq (monitoring ++ [ctl.path])
          rest with ⟨r, ops⟩
        have hred : startMonitors o now acq monitoring (ctl :: rest) =
            (r, MonOp.acquireAttempt ctl.path ctl.monitorLeaseExpiry
              ctl.monitorLeaseOwner o (now + leaseExpiryDuration) ::
              MonOp.startMonitor ctl.path newExpiry :: ops) := by
          simp only [startMonitors]
          rw [if_neg hnm, if_neg hg2]
          simp only [hacq, hrec]
        rw [hred]
        refine ⟨List.mem_cons_self _ _, fun ne h' => ?_⟩
        injection h' with e1
        rw [← e1]
        exact List.mem_cons_of_mem _ (List.mem_cons_self _ _)
    · -- the controller lies in the tail
      have hne : hd.path ≠ ctl.path := by
        intro hcontra
        have hmp : ctl.path ∈ rest.map CtlDoc.path :=
          List.mem_map_of_mem CtlDoc.path htl
        rw [← hcontra] at hmp
        exact (List.nodup_cons.mp hnd).1 hmp
      by_cases h1 : hd.path ∈ monitoring
      · have hred : startMonitors o now acq monitoring (hd :: rest) =
            startMonitors o now acq monitoring rest := by
          simp only [startMonitors]
          rw [if_pos h1]
        rw [hred]
        exact ih monitoring ctl htl hndtl hnm hg
      · by_cases h2 : hd.monitorLeaseOwner ≠ o ∧ now < hd.monitorLeaseExpiry
        · have hred : startMonitors o now acq monitoring (hd :: rest) =
              startMonitors o now acq monitoring rest := by
            simp only [startMonitors]
            rw [if_neg h1, if_pos h2]
          rw [hred]
          exact ih monitoring ctl htl hndtl hnm hg
        · cases hacq : acq hd.path with
          | stopped =>
            rcases hrec : startMonitors o now acq monitoring rest with ⟨r, ops⟩
            have hred : startMonitors o now acq monitoring (hd :: rest) =
                (r, MonOp.acquireAttempt hd.path hd.monitorLeaseExpiry
                  hd.monitorLeaseOwner o (now + leaseExpiryDuration) ::
                  ops) := by
              simp only [startMonitors]
              rw [if_neg h1, if_neg h2]
              simp only [hacq, hrec]
            rw [hred]
            have ihh := ih monitoring ctl htl hndtl hnm hg
            rw [hrec] at ihh
            exact ⟨List.mem_cons_of_mem _ ihh.1,
              fun ne h' => List.mem_cons_of_mem _ (ihh.2 ne h')⟩
          | failed e => exact absurd hacq (hok hd.path e)
          | acquired newExpiry =>
            rcases hrec : startMonitors o now acq (monitoring ++ [hd.path])
              rest with ⟨r, ops⟩
            have hred : startMonitors o now acq monitoring (hd :: rest) =
                (r, MonOp.acquireAttempt hd.path hd.monitorLeaseExpiry
                  hd.monitorLeaseOwner o (now + leaseExpiryDuration) ::
                  MonOp.startMonitor hd.path newExpiry :: ops) := by
              simp only [startMonitors]
              rw [if_neg h1, if_neg h2]
              simp only [hacq, hrec]
            rw [hred]
            have hnm2 : ctl.path ∉ monitoring ++ [hd.path] := by
              intro hcontra
              rcases List.mem_append.mp hcontra with hc | hc
              · exact hnm hc
              · exact hne (List.mem_singleton.mp hc).symm
            have ihh := ih (monitoring ++ [hd.path]) ctl htl hndtl hnm2 hg
            rw [hrec] at ihh
            exact ⟨List.mem_cons_of_mem _ (List.mem_cons_of_mem _ ihh.1),
              fun ne h' => List.mem_cons_of_mem _
                (List.mem_cons_of_mem _ (ihh.2 ne h'))⟩

/-! ### C8 -/

/-- C8: on a sweep of the allMonitor in which no lease acquisition
fails hard, for each controller returned by the store: an
already-monitored controller gets no lease-acquisition attempt; a
controller whose lease is held by a different owner with a future
expiry is skipped (no attempt); otherwise `AcquireMonitorLease` is
attempted with the observed expiry and owner, the local owner and
`now + leaseExpiryDuration`; a CAS failure leaves the sweep to
complete over the remaining controllers without adding the controller
to the monitoring set or starting its monitor, while a CAS success
adds the controller to the monitoring set and starts a per-controller
monitor. -/
theorem c8_startMonitors_sweep (o : String) (now : Int)
    (acq : EntityPath → AcqOutcome) (monitoring : List EntityPath)
    (ctls : List CtlDoc) (ctl : CtlDoc)
    (hok : ∀ q e, acq q ≠ .failed e)
    (hnd : (ctls.map CtlDoc.path).Nodup)
    (hmem : ctl ∈ ctls) :
    (startMonitors o now acq monitoring ctls).1 =
      .ok (okMembers (startMonitors o now acq monitoring ctls).1) ∧
    (∀ q oe oo no ne, q ∈ monitoring →
      MonOp.acquireAttempt q oe oo no ne ∉
        (startMonitors o now acq monitoring ctls).2) ∧
    (ctl.monitorLeaseOwner ≠ o → now < ctl.monitorLeaseExpiry →
      ∀ oe oo no ne, MonOp.acquireAttempt ctl.path oe oo no ne ∉
        (startMonitors o now acq monitoring ctls).2) ∧
    (ctl.path ∉ monitoring →
      (ctl.monitorLeaseOwner = o ∨ ¬ now < ctl.monitorLeaseExpiry) →
      MonOp.acquireAttempt ctl.path ctl.monitorLeaseExpiry
          ctl.monitorLeaseOwner o (now + leaseExpiryDuration) ∈
        (startMonitors o now acq monitoring ctls).2 ∧
      (acq ctl.path = .stopped →
        (∀ ne, MonOp.startMonitor ctl.path ne ∉
          (startMonitors o now acq monitoring ctls).2) ∧
        ctl.path ∉ okMembers (startMonitors o now acq monitoring ctls).1) ∧
      ∀ ne, acq ctl.path = .acquired ne →
        MonOp.startMonitor ctl.path ne ∈
          (startMonitors o now acq monitoring ctls).2 ∧
        ctl.path ∈ okMembers (startMonitors o now acq monitoring ctls).1) := by
  have hfin := startMonitors_final o now acq hok ctls monitoring
  refine ⟨hfin.1, ?_, ?_, ?_⟩
  · intro q oe oo no ne hq hin
    exact (startMonitors_attempt_inv o now acq ctls monitoring
      q oe oo no ne hin).1 hq
  · intro howner hlt oe oo no ne hin
    obtain ⟨hq, c, hc1, hc2, hc3, hc4, hc5, hc6, hc7⟩ :=
      startMonitors_attempt_inv o now acq ctls monitoring
        ctl.path oe oo no ne hin
    have hceq : ctl = c :=
      List.inj_on_of_nodup_map hnd hmem hc1 hc2
    rcases hc7 with hc7 | hc7
    · exact howner (hceq ▸ hc7)
    · exact hc7 (hceq ▸ hlt)
  · intro hnm hg
    obtain ⟨hatt, hstart⟩ :=
      startMonitors_eligible o now acq hok ctls monitoring ctl hmem hnd hnm hg
    refine ⟨hatt, ?_, ?_⟩
    · intro hstopped
      have hnostart : ∀ ne, MonOp.startMonitor ctl.path ne ∉
          (startMonitors o now acq monitoring ctls).2 := by
        intro ne hin
        have hac := startMonitors_start_acquired o now acq ctls monitoring
          ctl.path ne hin
        rw [hstopped] at hac
        cases hac
      refine ⟨hnostart, fun hfinmem => ?_⟩
      rcases (hfin.2 ctl.path).mp hfinmem with hm | ⟨ne, hne⟩
      · exact hnm hm
      · exact hnostart ne hne
    · intro ne hacq
      exact ⟨hstart ne hacq, (hfin.2 ctl.path).mpr (Or.inr ⟨ne, hstart ne hacq⟩)⟩

/-- Witness for C8: one controller with an expired foreign lease; the
CAS is attempted with the observed data, succeeds, and the controller
is added to the monitoring set with its monitor started. -/
theorem c8_witness :
    MonOp.acquireAttempt ⟨"admin", "ctl1"⟩ 50 "jem-2" "jem-1" 160 ∈
      (startMonitors "jem-1" 100 wAcquire [] [wCtlDoc]).2 ∧
    MonOp.startMonitor ⟨"admin", "ctl1"⟩ 160 ∈
      (startMonitors "jem-1" 100 wAcquire [] [wCtlDoc]).2 ∧
    (⟨"admin", "ctl1"⟩ : EntityPath) ∈
      okMembers (startMonitors "jem-1" 100 wAcquire [] [wCtlDoc]).1 := by
  have h := c8_startMonitors_sweep "jem-1" 100 wAcquire [] [wCtlDoc] wCtlDoc
    (fun q e => by simp [wAcquire]) (by decide) (List.mem_cons_self _ _)
  have h4 := h.2.2.2 (by simp) (Or.inr (by decide))
  obtain ⟨hatt, hstop, hacq⟩ := h4
  have h5 := hacq 160 rfl
  exact ⟨hatt, h5.1, h5.2⟩

end Jimm
